import Mathlib

/-!
Verification of the promised-db library (a promise wrapper over the browser
object-store engine) against its specification.  The development shallowly
embeds the cursor-iteration engine (`CursorIterator.#iterateCursor` and its
`iterateKeys` wrapper from `cursor.ts`, version with the early-break API),
the `getAllPrimaryKeys` delegations (`dbActions.ts`), the transaction wrapper
(`Database.transaction` in `dbDeclarations.ts`), and the open/upgrade
orchestrator (`DatabaseDef.open`, version with the `onblocked` handler).

Host-engine behaviour (request success events, cursor movement, record
ordering) is modelled explicitly: a cursor run is driven by the ordered list
of positions the host cursor would visit (the `query`/`direction` arguments
only select and order that list, so they are folded into it), and the
transaction / open wrappers are driven by the ordered list of host events
they observe.
-/

namespace PromisedDb

/-- A JS value usable as an object-store key: the claims only exercise
number and string keys. -/
inductive JSKey
  | num (n : Int)
  | str (s : String)
deriving DecidableEq, Repr

/-- JS truthiness of a key value: the number 0 and the empty string are
falsy, everything else here is truthy. -/
def JSKey.truthy : JSKey → Bool
  | .num n => n != 0
  | .str s => s != ""

/-- Host key ordering: numbers sort before strings, numbers by value,
strings lexicographically. -/
def JSKey.ltb : JSKey → JSKey → Bool
  | .num a, .num b => decide (a < b)
  | .num _, .str _ => true
  | .str _, .num _ => false
  | .str a, .str b => decide (a < b)

/-- Lexicographic order on (key, primaryKey) pairs, as used by
`IDBCursor.continuePrimaryKey`. -/
def keyPairLtb (a b : JSKey × JSKey) : Bool :=
  JSKey.ltb a.1 b.1 || (a.1 == b.1 && JSKey.ltb a.2 b.2)

/-- One position a cursor visits: its key and the record's primary key
(`CursorValue1` in cursor.ts). -/
structure CursorPos where
  key : JSKey
  primaryKey : JSKey
deriving DecidableEq, Repr

/-- The `from` field of `CursorIterationOption`: a key and an optional
primary key. -/
structure FromOption where
  key : JSKey
  primaryKey : Option JSKey
deriving DecidableEq, Repr

/-- `CursorIterationOption` from cursor.ts.  The `query` and `direction`
fields only determine which positions the host cursor visits and in what
order, so they are represented by the position list handed to a run. -/
structure CursorIterationOption where
  «from» : Option FromOption
  limit : Option Int
  offset : Option Int
deriving DecidableEq, Repr

/-- Host calls a cursor run can issue. -/
inductive HostCall
  | openCursor
  | continueNext
  | continueTo (k : JSKey)
  | continuePrimaryKey (k pk : JSKey)
  | advance (n : Int)
deriving DecidableEq, Repr

/-- Ways a cursor host call can be rejected synchronously by the engine:
`advance(0)` is invalid, and `continue`/`continuePrimaryKey` must target a
position strictly greater than the current one. -/
inductive HostCallError
  | advanceCountZero
  | seekNotGreater
deriving DecidableEq, Repr

/-- Observable events of one iteration run, in the order they happen:
host calls issued, user-callback invocations (with the position passed to
the callback), executions of the run's `resolve()`, and a host call blowing
up (which ends the run without settling its promise). -/
inductive RunEvent
  | call (c : HostCall)
  | deliver (p : CursorPos)
  | resolveRun
  | abortedWith (e : HostCallError)
deriving DecidableEq, Repr

/-- The two synchronous pre-flight validation failures of
`#iterateCursor`. -/
inductive ValidationError
  | offsetLessThanOne
  | limitLessThanOne
deriving DecidableEq, Repr

instance {ε α : Type} [DecidableEq ε] [DecidableEq α] : DecidableEq (Except ε α) :=
  fun x y =>
    match x, y with
    | .ok a, .ok b =>
      if h : a = b then .isTrue (by rw [h]) else .isFalse (by simp [h])
    | .error a, .error b =>
      if h : a = b then .isTrue (by rw [h]) else .isFalse (by simp [h])
    | .ok _, .error _ => .isFalse (by simp)
    | .error _, .ok _ => .isFalse (by simp)

/-- `if (options?.offset && options.offset < 1) throw ...`: the guard fires
only when the value is truthy (nonzero) and below 1. -/
def offsetOptionInvalid : Option Int → Bool
  | some n => n != 0 && decide (n < 1)
  | none => false

/-- `if (options?.limit && options.limit < 1) throw ...`. -/
def limitOptionInvalid : Option Int → Bool
  | some n => n != 0 && decide (n < 1)
  | none => false

/-- `let fromIndexNotApplied = Boolean(options?.from?.key)`: the pending
from-seek survives initialization only when `from.key` is truthy. -/
def initialFromPending : Option FromOption → Option FromOption
  | some f => if f.key.truthy then some f else none
  | none => none

/-- `let offsetNotApplied = Boolean(options?.offset)`: the pending offset
survives initialization only when `offset` is truthy (nonzero). -/
def initialOffsetPending : Option Int → Option Int
  | some n => if n != 0 then some n else none
  | none => none

/-- `if (options?.limit && curCount >= options.limit) resolve()`. -/
def limitReached (limit : Option Int) (curCount : Int) : Bool :=
  match limit with
  | some l => l != 0 && decide (l ≤ curCount)
  | none => false

/-- The `rq.onsuccess` loop of `#iterateCursor`, driven by the list of
positions still ahead of the cursor (the current position first).  Each
cursor-ready event consumes fuel; `store.length + 1` fuel is enough because
every recursive step strictly shortens the remaining list.

Per event with a live cursor the code either (1) performs the pending
from-seek (`continuePrimaryKey` when `from.primaryKey` is truthy, otherwise
`continue(from.key)`; the engine rejects seeks that are not strictly
forward), (2) performs the pending offset skip `advance(offset - 1)` (the
engine rejects a zero count), or (3) increments `curCount`, invokes the user
action, executes `resolve()` when the limit is reached, and — when the
action's value `done` is falsy — issues `cursor.continue()`; a truthy `done`
executes `resolve()` instead.  A cursor-ready event with no cursor executes
`resolve()`. -/
def cursorLoop (actionDone : CursorPos → Bool) (limit : Option Int) :
    Nat → List CursorPos → Option FromOption → Option Int → Int → List RunEvent
  | 0, _, _, _, _ => []
  | _ + 1, [], _, _, _ => [.resolveRun]
  | fuel + 1, p :: rest, fromPending, offsetPending, curCount =>
    match fromPending with
    | some f =>
      match f.primaryKey with
      | some fpk =>
        if fpk.truthy then
          .call (.continuePrimaryKey f.key fpk) ::
            (if keyPairLtb (p.key, p.primaryKey) (f.key, fpk) then
              cursorLoop actionDone limit fuel
                (rest.dropWhile fun q => keyPairLtb (q.key, q.primaryKey) (f.key, fpk))
                none offsetPending curCount
            else [.abortedWith .seekNotGreater])
        else
          .call (.continueTo f.key) ::
            (if JSKey.ltb p.key f.key then
              cursorLoop actionDone limit fuel
                (rest.dropWhile fun q => JSKey.ltb q.key f.key)
                none offsetPending curCount
            else [.abortedWith .seekNotGreater])
      | none =>
        .call (.continueTo f.key) ::
          (if JSKey.ltb p.key f.key then
            cursorLoop actionDone limit fuel
              (rest.dropWhile fun q => JSKey.ltb q.key f.key)
              none offsetPending curCount
          else [.abortedWith .seekNotGreater])
    | none =>
      match offsetPending with
      | some o =>
        let n := o - 1
        if n < 1 then [.call (.advance n), .abortedWith .advanceCountZero]
        else
          .call (.advance n) ::
            cursorLoop actionDone limit fuel (rest.drop (n.toNat - 1)) none none curCount
      | none =>
        let cnt := curCount + 1
        .deliver p ::
          ((if limitReached limit cnt then [.resolveRun] else []) ++
            (if actionDone p then [.resolveRun]
             else .call .continueNext :: cursorLoop actionDone limit fuel rest none none cnt))

/-- `CursorIterator.#iterateCursor`: validate `offset` and `limit`, then
open the cursor and run the event loop.  `actionDone` is the (truthiness of
the) value with which the `action` promise passed to `#iterateCursor`
resolves at a given position. -/
def iterateCursorRun (store : List CursorPos) (options : CursorIterationOption)
    (actionDone : CursorPos → Bool) : Except ValidationError (List RunEvent) :=
  if offsetOptionInvalid options.offset then .error .offsetLessThanOne
  else if limitOptionInvalid options.limit then .error .limitLessThanOne
  else
    .ok (.call .openCursor ::
      cursorLoop actionDone options.limit (store.length + 1) store
        (initialFromPending options.«from») (initialOffsetPending options.offset) 0)

/-- The wrapper `iterateKeys` passes to `#iterateCursor`:
`async (cursor) => { await action({key, primaryKey}) }`.  The user action's
resolved value (`some true` to break, `some false`, or `none` for a plain
`undefined` return) is awaited but not returned, so the wrapper's promise
always resolves with `undefined` — a falsy `done`. -/
def iterateKeysActionDone (userAction : JSKey → JSKey → Option Bool)
    (p : CursorPos) : Bool :=
  let _userResult := userAction p.key p.primaryKey
  false

namespace CursorIterator

/-- `CursorIterator.iterateKeys`: a key-cursor run over the positions the
host key cursor would visit, with the user action wrapped as in the
source. -/
def iterateKeys (store : List CursorPos) (userAction : JSKey → JSKey → Option Bool)
    (options : CursorIterationOption) : Except ValidationError (List RunEvent) :=
  iterateCursorRun store options (iterateKeysActionDone userAction)

end CursorIterator

/-- Positions passed to the user callback, in delivery order. -/
def deliveredPositions (evs : List RunEvent) : List CursorPos :=
  evs.filterMap fun e => match e with | .deliver p => some p | _ => none

/-- Host calls issued during the run, in order. -/
def hostCallsOf (evs : List RunEvent) : List HostCall :=
  evs.filterMap fun e => match e with | .call c => some c | _ => none

/-- Events that happen strictly after the run's promise first resolves. -/
def eventsAfterFirstResolve (evs : List RunEvent) : List RunEvent :=
  (evs.dropWhile fun e => e != .resolveRun).drop 1

/-- Events of a run that passed validation (a rejected run has none). -/
def runEvents : Except ValidationError (List RunEvent) → List RunEvent
  | .error _ => []
  | .ok evs => evs

/-- First position delivered to the user callback. -/
def firstDelivered (r : Except ValidationError (List RunEvent)) : Option CursorPos :=
  (deliveredPositions (runEvents r)).head?

/-- A store whose key cursor visits keys 1,2,3,4,5 (an object-store key
cursor: key and primary key coincide). -/
def store5 : List CursorPos :=
  [⟨.num 1, .num 1⟩, ⟨.num 2, .num 2⟩, ⟨.num 3, .num 3⟩,
   ⟨.num 4, .num 4⟩, ⟨.num 5, .num 5⟩]

/-- A user callback that asks to break (returns `true`) at key 3 and
returns `undefined` elsewhere. -/
def breakAtKey3 (k : JSKey) (_pk : JSKey) : Option Bool :=
  if k = .num 3 then some true else none

/-- A user callback that always returns `undefined`. -/
def noopKeyAction (_k _pk : JSKey) : Option Bool :=
  none

/-! ### Object store / index handles (`dbActions.ts`) -/

/-- A host key range (`IDBKeyRange`), as built by the `bound` /
`lowerBound` / `upperBound` / `only` helpers of `IndexDef`. -/
structure KeyRange where
  lower : Option JSKey
  upper : Option JSKey
  lowerOpen : Bool
  upperOpen : Bool
deriving DecidableEq, Repr

def JSKey.leb (a b : JSKey) : Bool :=
  a.ltb b || a == b

/-- Host membership test of a key in a range. -/
def KeyRange.containsKey (r : KeyRange) (k : JSKey) : Bool :=
  (match r.lower with
   | some l => if r.lowerOpen then l.ltb k else l.leb k
   | none => true) &&
  (match r.upper with
   | some u => if r.upperOpen then k.ltb u else k.leb u
   | none => true)

/-- The `query` argument of the getters: a single key or a key range. -/
inductive Query
  | key (k : JSKey)
  | range (r : KeyRange)
deriving DecidableEq, Repr

def Query.matches : Query → JSKey → Bool
  | .key k, x => k == x
  | .range r, x => r.containsKey x

/-- An absent query matches every record. -/
def queryMatches : Option Query → JSKey → Bool
  | none, _ => true
  | some q, x => q.matches x

/-- An optional `count` truncates a host result list. -/
def takeCount (count : Option Nat) (l : List α) : List α :=
  match count with
  | some c => l.take c
  | none => l

/-- One record as seen through an index: its index key, the record's
primary key, and the stored value. -/
structure IndexRecord (V : Type) where
  key : JSKey
  primaryKey : JSKey
  value : V
deriving DecidableEq, Repr

/-- One record of an object store: its primary key and the stored value. -/
structure StoreRecord (V : Type) where
  primaryKey : JSKey
  value : V
deriving DecidableEq, Repr

namespace HostIndex

/-- Host `IDBIndex.getAll`: the stored values of the records whose index
key matches the query, in index order, truncated by `count`. -/
def getAll (recs : List (IndexRecord V)) (query : Option Query)
    (count : Option Nat) : List V :=
  takeCount count ((recs.filter fun r => queryMatches query r.key).map (·.value))

/-- Host `IDBIndex.getAllKeys`: the primary keys of the matching records. -/
def getAllKeys (recs : List (IndexRecord V)) (query : Option Query)
    (count : Option Nat) : List JSKey :=
  takeCount count ((recs.filter fun r => queryMatches query r.key).map (·.primaryKey))

end HostIndex

namespace HostStore

/-- Host `IDBObjectStore.getAllKeys`: the primary keys of the records whose
primary key matches the query. -/
def getAllKeys (recs : List (StoreRecord V)) (query : Option Query)
    (count : Option Nat) : List JSKey :=
  takeCount count
    ((recs.filter fun r => queryMatches query r.primaryKey).map (·.primaryKey))

end HostStore

namespace Index

/-- `Index.getAllPrimaryKeys` of dbActions.ts:
`dbPromise(this.#index.getAll(query, count))` — it delegates to the host
`getAll` and therefore resolves with the stored values. -/
def getAllPrimaryKeys (recs : List (IndexRecord V)) (query : Option Query)
    (count : Option Nat) : List V :=
  HostIndex.getAll recs query count

end Index

namespace ObjectStore

/-- `ObjectStore.getAllPrimaryKeys` of dbActions.ts:
`dbPromise(this.#objectStore.getAllKeys(query, count))`. -/
def getAllPrimaryKeys (recs : List (StoreRecord V)) (query : Option Query)
    (count : Option Nat) : List JSKey :=
  HostStore.getAllKeys recs query count

end ObjectStore

/-! ### `Database.transaction` (`dbDeclarations.ts`) -/

/-- Host/continuation events observed by one `Database.transaction` call,
in the order they occur: the transaction's `complete` event, and the
settlement of the action's promise (its `then` / `catch` continuation
running). -/
inductive TxEvent (α ε : Type)
  | complete
  | actionResolved (v : α)
  | actionRejected (e : ε)
deriving DecidableEq, Repr

/-- How the promise returned by `transaction()` settles. -/
inductive TxSettle (α ε : Type)
  | resolved (v : α)
  | mismatch
  | rejected (e : ε)
deriving DecidableEq, Repr

/-- Side effects of the wrapper, in order: `transaction.abort()` calls and
the effective settlement of the returned promise.  `mismatch` stands for
the distinguished
`Error("Transaction completed before action function completed")`. -/
inductive TxAction (α ε : Type)
  | abortIssued
  | settle (s : TxSettle α ε)
deriving DecidableEq, Repr

/-- State of one `transaction()` call: `actionResult` is `some v` exactly
when the source's `actionCompleted` flag is set (the two variables
`actionCompleted` and `result` are always written together), `settled` is
the first settlement of the returned promise, `abortCalled` records whether
`transaction.abort()` was invoked, and `log` records the side effects in
order. -/
structure TxState (α ε : Type) where
  actionResult : Option α
  settled : Option (TxSettle α ε)
  abortCalled : Bool
  log : List (TxAction α ε)
deriving DecidableEq, Repr

/-- `resolve` / `reject`: only the first settlement of a promise takes
effect. -/
def txSettle (s : TxState α ε) (o : TxSettle α ε) : TxState α ε :=
  match s.settled with
  | some _ => s
  | none => { s with settled := some o, log := s.log ++ [.settle o] }

/-- One event handled by the wrapper:
`transaction.oncomplete` rejects with the mismatch error when the action
has not completed and otherwise resolves with its result; the action's
`then` records completion and result; the action's `catch` calls
`transaction.abort()` and rejects with the action's error. -/
def txStep (s : TxState α ε) : TxEvent α ε → TxState α ε
  | .complete =>
    match s.actionResult with
    | none => txSettle s .mismatch
    | some v => txSettle s (.resolved v)
  | .actionResolved v => { s with actionResult := some v }
  | .actionRejected e =>
    txSettle { s with abortCalled := true, log := s.log ++ [.abortIssued] }
      (.rejected e)

def txInit : TxState α ε := ⟨none, none, false, []⟩

def processTx (s : TxState α ε) (evs : List (TxEvent α ε)) : TxState α ε :=
  evs.foldl txStep s

/-- `Database.transaction`, as a function of the ordered events it
observes. -/
def transactionRun (evs : List (TxEvent α ε)) : TxState α ε :=
  processTx txInit evs

/-! ### `DatabaseDef.open` (`dbDeclarations.ts`, 3.1.2: with `onblocked`) -/

/-- Events an open request can fire: `upgradeneeded` (runs the upgrader),
`success`, `error` (an opaque host error code), and `blocked`. -/
inductive OpenEvent
  | upgradeNeeded (oldVersion : Nat) (newVersion : Option Nat)
  | success
  | blocked
  | error (code : Nat)
deriving DecidableEq, Repr

/-- How the promise returned by `open()` settles:
`rejectedUpgradeBlocked` stands for the distinguished
`UpgradeAttemptBlockedError`. -/
inductive OpenSettle
  | resolvedDatabase
  | rejectedError (code : Nat)
  | rejectedUpgradeBlocked
deriving DecidableEq, Repr

/-- State of one `open()` call: the first settlement of its promise and the
`(oldVersion, newVersion)` arguments of every upgrader invocation. -/
structure OpenState where
  settled : Option OpenSettle
  upgraderRuns : List (Nat × Option Nat)
deriving DecidableEq, Repr

def openSettle (s : OpenState) (o : OpenSettle) : OpenState :=
  match s.settled with
  | some _ => s
  | none => { s with settled := some o }

/-- The four request handlers of `DatabaseDef.open`:
`onupgradeneeded` runs the upgrader, `onsuccess` resolves with the
`Database`, `onerror` rejects with the host error, and `onblocked` rejects
with `UpgradeAttemptBlockedError`. -/
def openStep (s : OpenState) : OpenEvent → OpenState
  | .upgradeNeeded oldV newV => { s with upgraderRuns := s.upgraderRuns ++ [(oldV, newV)] }
  | .success => openSettle s .resolvedDatabase
  | .blocked => openSettle s .rejectedUpgradeBlocked
  | .error c => openSettle s (.rejectedError c)

def processOpen (s : OpenState) (evs : List OpenEvent) : OpenState :=
  evs.foldl openStep s

/-- `DatabaseDef.open`, as a function of the ordered events its request
fires. -/
def openRun (evs : List OpenEvent) : OpenState :=
  processOpen ⟨none, []⟩ evs

/-! ### Helper lemmas -/

theorem txSettle_of_some {s : TxState α ε} {x : TxSettle α ε}
    (h : s.settled = some x) (o : TxSettle α ε) : txSettle s o = s := by
  unfold txSettle
  rw [h]

theorem txSettle_of_none {s : TxState α ε} (h : s.settled = none)
    (o : TxSettle α ε) :
    txSettle s o = { s with settled := some o, log := s.log ++ [.settle o] } := by
  unfold txSettle
  rw [h]

theorem txSettle_settled_some {s : TxState α ε} {o : TxSettle α ε} (o' : TxSettle α ε)
    (h : s.settled = some o) : (txSettle s o').settled = some o := by
  rw [txSettle_of_some h o']
  exact h

theorem txSettle_settled_isSome (s : TxState α ε) (o : TxSettle α ε) :
    ∃ x, (txSettle s o).settled = some x := by
  cases hs : s.settled with
  | none => exact ⟨o, by rw [txSettle_of_none hs o]⟩
  | some x => exact ⟨x, by rw [txSettle_of_some hs o]; exact hs⟩

theorem txSettle_actionResult (s : TxState α ε) (o : TxSettle α ε) :
    (txSettle s o).actionResult = s.actionResult := by
  cases hs : s.settled with
  | none => rw [txSettle_of_none hs o]
  | some x => rw [txSettle_of_some hs o]

theorem txSettle_abortCalled (s : TxState α ε) (o : TxSettle α ε) :
    (txSettle s o).abortCalled = s.abortCalled := by
  cases hs : s.settled with
  | none => rw [txSettle_of_none hs o]
  | some x => rw [txSettle_of_some hs o]

theorem txSettle_log_extends (s : TxState α ε) (o : TxSettle α ε) :
    ∃ d, (txSettle s o).log = s.log ++ d := by
  cases hs : s.settled with
  | none => exact ⟨_, by rw [txSettle_of_none hs o]⟩
  | some x => exact ⟨[], by rw [txSettle_of_some hs o]; simp⟩

/-- If `txSettle` left the state settled at `x`, the state was already
settled at `x`, or it was unsettled and `x` is the settlement just
performed. -/
theorem txSettle_settled_cases {s : TxState α ε} {o' x : TxSettle α ε}
    (h : (txSettle s o').settled = some x) :
    s.settled = some x ∨ (s.settled = none ∧ x = o') := by
  cases hss : s.settled with
  | none =>
    rw [txSettle_of_none hss] at h
    simp at h
    exact Or.inr ⟨rfl, h.symm⟩
  | some y =>
    rw [txSettle_of_some hss] at h
    exact Or.inl (hss ▸ h)

/-- The state the `catch` handler of the wrapper produces before it calls
`reject`: the abort has been issued and logged. -/
def txAbortMark (s : TxState α ε) : TxState α ε :=
  { s with abortCalled := true, log := s.log ++ [.abortIssued] }

theorem txStep_rejected_eq (s : TxState α ε) (e0 : ε) :
    txStep s (.actionRejected e0) = txSettle (txAbortMark s) (.rejected e0) := rfl

theorem txStep_complete_none {s : TxState α ε} (h : s.actionResult = none) :
    txStep s .complete = txSettle s .mismatch := by
  unfold txStep
  rw [h]

theorem txStep_complete_some {s : TxState α ε} {v : α} (h : s.actionResult = some v) :
    txStep s .complete = txSettle s (.resolved v) := by
  unfold txStep
  rw [h]

theorem txStep_settled_some {s : TxState α ε} {o : TxSettle α ε} (e : TxEvent α ε)
    (h : s.settled = some o) : (txStep s e).settled = some o := by
  cases e with
  | complete =>
    unfold txStep
    cases hr : s.actionResult with
    | none => exact txSettle_settled_some _ h
    | some v => exact txSettle_settled_some _ h
  | actionResolved v => exact h
  | actionRejected e0 =>
    rw [txStep_rejected_eq]
    exact txSettle_settled_some _ (show (txAbortMark s).settled = some o from h)

theorem processTx_settled_some {o : TxSettle α ε} (evs : List (TxEvent α ε))
    (s : TxState α ε) (h : s.settled = some o) :
    (processTx s evs).settled = some o := by
  induction evs generalizing s with
  | nil => exact h
  | cons e rest ih => exact ih (txStep s e) (txStep_settled_some e h)

theorem txStep_abort_mono {s : TxState α ε} (e : TxEvent α ε)
    (h : s.abortCalled = true) : (txStep s e).abortCalled = true := by
  cases e with
  | complete =>
    unfold txStep
    cases hr : s.actionResult with
    | none => rw [txSettle_abortCalled]; exact h
    | some v => rw [txSettle_abortCalled]; exact h
  | actionResolved v => exact h
  | actionRejected e0 =>
    rw [txStep_rejected_eq, txSettle_abortCalled]
    rfl

theorem processTx_abort_mono (evs : List (TxEvent α ε)) (s : TxState α ε)
    (h : s.abortCalled = true) : (processTx s evs).abortCalled = true := by
  induction evs generalizing s with
  | nil => exact h
  | cons e rest ih => exact ih (txStep s e) (txStep_abort_mono e h)

theorem txStep_log_extends (s : TxState α ε) (e : TxEvent α ε) :
    ∃ d, (txStep s e).log = s.log ++ d := by
  cases e with
  | complete =>
    unfold txStep
    cases hr : s.actionResult with
    | none => exact txSettle_log_extends s _
    | some v => exact txSettle_log_extends s _
  | actionResolved v => exact ⟨[], by simp [txStep]⟩
  | actionRejected e0 =>
    rw [txStep_rejected_eq]
    obtain ⟨d, hd⟩ := txSettle_log_extends (txAbortMark s) (.rejected e0)
    exact ⟨.abortIssued :: d, by rw [hd]; simp [txAbortMark]⟩

theorem processTx_log_extends (evs : List (TxEvent α ε)) (s : TxState α ε) :
    ∃ d, (processTx s evs).log = s.log ++ d := by
  induction evs generalizing s with
  | nil => exact ⟨[], by simp [processTx]⟩
  | cons e rest ih =>
    obtain ⟨d1, h1⟩ := txStep_log_extends s e
    obtain ⟨d2, h2⟩ := ih (txStep s e)
    refine ⟨d1 ++ d2, ?_⟩
    have hfold : processTx s (e :: rest) = processTx (txStep s e) rest := by
      simp [processTx]
    rw [hfold, h2, h1, List.append_assoc]

/-- Processing a prefix made only of `complete` events leaves the action
uncompleted and the promise either unsettled or rejected with the mismatch
error. -/
theorem processTx_all_complete (pre : List (TxEvent α ε)) (s : TxState α ε)
    (hpre : ∀ e ∈ pre, e = TxEvent.complete) (ha : s.actionResult = none)
    (hs : s.settled = none ∨ s.settled = some .mismatch) :
    (processTx s pre).actionResult = none ∧
      ((processTx s pre).settled = none ∨
        (processTx s pre).settled = some .mismatch) := by
  induction pre generalizing s with
  | nil => exact ⟨ha, hs⟩
  | cons e rest ih =>
    have he : e = TxEvent.complete := hpre e (by simp)
    subst he
    have hstep : txStep s .complete = txSettle s .mismatch := by
      unfold txStep
      rw [ha]
    have ha' : (txSettle s .mismatch).actionResult = none := by
      rw [txSettle_actionResult]
      exact ha
    have hs' : (txSettle s .mismatch).settled = none ∨
        (txSettle s .mismatch).settled = some .mismatch := by
      cases hss : s.settled with
      | none => exact Or.inr (by rw [txSettle_of_none hss])
      | some o =>
        rcases hs with h | h
        · exact absurd (hss ▸ h) (by simp)
        · exact Or.inr (by rw [txSettle_of_some hss]; exact h)
    have hfold : processTx s (.complete :: rest) = processTx (txSettle s .mismatch) rest := by
      simp [processTx, hstep]
    rw [hfold]
    exact ih (txSettle s .mismatch) (fun e he => hpre e (by simp [he])) ha' hs'

/-- If a run of the transaction wrapper ends resolved with `v`, then either
it started that way, or the trace contains a `complete` event preceded by
the action resolving with `v` (possibly established before the trace). -/
theorem processTx_resolved_source (evs : List (TxEvent α ε)) (s : TxState α ε)
    (v : α) (h : (processTx s evs).settled = some (.resolved v)) :
    s.settled = some (.resolved v) ∨
      ∃ pre post, evs = pre ++ TxEvent.complete :: post ∧
        (TxEvent.actionResolved v ∈ pre ∨ s.actionResult = some v) := by
  induction evs generalizing s with
  | nil => exact Or.inl h
  | cons e rest ih =>
    have hfold : processTx s (e :: rest) = processTx (txStep s e) rest := by
      simp [processTx]
    rw [hfold] at h
    rcases ih (txStep s e) h with h1 | ⟨pre, post, hdecomp, hsrc⟩
    · -- the step itself settled (or the state was settled before it)
      cases e with
      | complete =>
        cases hr : s.actionResult with
        | none =>
          rw [txStep_complete_none hr] at h1
          rcases txSettle_settled_cases h1 with h2 | ⟨_, h2⟩
          · exact Or.inl h2
          · exact absurd h2 (by simp)
        | some w =>
          rw [txStep_complete_some hr] at h1
          rcases txSettle_settled_cases h1 with h2 | ⟨_, h2⟩
          · exact Or.inl h2
          · have hwv : w = v := by simpa using h2.symm
            exact Or.inr ⟨[], rest, by simp, Or.inr (by rw [hwv])⟩
      | actionResolved w => exact Or.inl h1
      | actionRejected e0 =>
        rw [txStep_rejected_eq] at h1
        rcases txSettle_settled_cases h1 with h2 | ⟨_, h2⟩
        · exact Or.inl h2
        · exact absurd h2 (by simp)
    · -- the settlement originates further down the trace
      refine Or.inr ⟨e :: pre, post, by simp [hdecomp], ?_⟩
      rcases hsrc with hmem | hres
      · exact Or.inl (by simp [hmem])
      · cases e with
        | complete =>
          refine Or.inr ?_
          cases hr : s.actionResult with
          | none =>
            rw [txStep_complete_none hr, txSettle_actionResult] at hres
            exact hr ▸ hres
          | some w =>
            rw [txStep_complete_some hr, txSettle_actionResult] at hres
            exact hr ▸ hres
        | actionResolved w =>
          have : w = v := by simpa [txStep] using hres
          exact Or.inl (by simp [this])
        | actionRejected e0 =>
          refine Or.inr ?_
          rw [txStep_rejected_eq, txSettle_actionResult] at hres
          exact hres

theorem processTx_cons (s : TxState α ε) (e : TxEvent α ε) (evs : List (TxEvent α ε)) :
    processTx s (e :: evs) = processTx (txStep s e) evs := by
  unfold processTx
  rw [List.foldl_cons]

theorem processTx_append (s : TxState α ε) (l1 l2 : List (TxEvent α ε)) :
    processTx s (l1 ++ l2) = processTx (processTx s l1) l2 := by
  unfold processTx
  rw [List.foldl_append]

theorem openSettle_settled_some {s : OpenState} {o : OpenSettle} (o' : OpenSettle)
    (h : s.settled = some o) : (openSettle s o').settled = some o := by
  unfold openSettle
  rw [h]
  exact h

theorem openSettle_of_none {s : OpenState} (h : s.settled = none) (o : OpenSettle) :
    openSettle s o = { s with settled := some o } := by
  unfold openSettle
  rw [h]

theorem openSettle_settled_isSome (s : OpenState) (o : OpenSettle) :
    ∃ x, (openSettle s o).settled = some x := by
  cases hs : s.settled with
  | none => exact ⟨o, by rw [openSettle_of_none hs o]⟩
  | some x => exact ⟨x, openSettle_settled_some o hs⟩

theorem processOpen_cons (s : OpenState) (e : OpenEvent) (evs : List OpenEvent) :
    processOpen s (e :: evs) = processOpen (openStep s e) evs := by
  unfold processOpen
  rw [List.foldl_cons]

theorem processOpen_append (s : OpenState) (l1 l2 : List OpenEvent) :
    processOpen s (l1 ++ l2) = processOpen (processOpen s l1) l2 := by
  unfold processOpen
  rw [List.foldl_append]

theorem openStep_settled_some {s : OpenState} {o : OpenSettle} (e : OpenEvent)
    (h : s.settled = some o) : (openStep s e).settled = some o := by
  cases e with
  | upgradeNeeded oldV newV => exact h
  | success => exact openSettle_settled_some _ h
  | blocked => exact openSettle_settled_some _ h
  | error c => exact openSettle_settled_some _ h

theorem processOpen_settled_some {o : OpenSettle} (evs : List OpenEvent)
    (s : OpenState) (h : s.settled = some o) :
    (processOpen s evs).settled = some o := by
  induction evs generalizing s with
  | nil => exact h
  | cons e rest ih => exact ih (openStep s e) (openStep_settled_some e h)

/-- Upgrade events do not settle the open promise. -/
theorem processOpen_upgrades_keep_settled (pre : List OpenEvent) (s : OpenState)
    (hpre : ∀ ev ∈ pre, ∃ o n, ev = OpenEvent.upgradeNeeded o n) :
    (processOpen s pre).settled = s.settled := by
  induction pre generalizing s with
  | nil => rfl
  | cons e rest ih =>
    obtain ⟨o, n, he⟩ := hpre e (by simp)
    subst he
    have hfold : processOpen s (.upgradeNeeded o n :: rest) =
        processOpen (openStep s (.upgradeNeeded o n)) rest := by
      simp [processOpen]
    rw [hfold, ih _ (fun ev hev => hpre ev (by simp [hev]))]
    rfl

/-! ### Claims -/

/-- C1: For the store with keys 1..5 and a key-iteration callback returning
`true` at key 3, the claim says the run stops after delivering key 3.  The
code does not: the `iterateKeys` wrapper discards the callback's resolved
value, so `done` is always falsy, every key (including 4 and 5) is
delivered, and a `cursor.continue()` is issued after the stop signal at
key 3.  This theorem records the full observable trace of that run. -/
theorem iterateKeys_break_value_discarded :
    CursorIterator.iterateKeys store5 breakAtKey3 ⟨none, none, none⟩ =
      .ok [.call .openCursor,
        .deliver ⟨.num 1, .num 1⟩, .call .continueNext,
        .deliver ⟨.num 2, .num 2⟩, .call .continueNext,
        .deliver ⟨.num 3, .num 3⟩, .call .continueNext,
        .deliver ⟨.num 4, .num 4⟩, .call .continueNext,
        .deliver ⟨.num 5, .num 5⟩, .call .continueNext,
        .resolveRun] := by
  decide

/-- C2: For the store with keys 1..5 and `{limit: 2}`, the claim says the
callback runs exactly twice and no host call follows the `Done` state.  In
the code the run's promise does resolve at the second delivery, but the
in-flight callback's continuation still issues `cursor.continue()`, so
the callback is invoked for all five keys and host calls keep being issued
after the first `resolve()`.  This theorem records the full trace and the
post-resolution activity. -/
theorem limit_resolves_but_iteration_continues :
    CursorIterator.iterateKeys store5 noopKeyAction ⟨none, some 2, none⟩ =
      .ok [.call .openCursor,
        .deliver ⟨.num 1, .num 1⟩, .call .continueNext,
        .deliver ⟨.num 2, .num 2⟩, .resolveRun, .call .continueNext,
        .deliver ⟨.num 3, .num 3⟩, .resolveRun, .call .continueNext,
        .deliver ⟨.num 4, .num 4⟩, .resolveRun, .call .continueNext,
        .deliver ⟨.num 5, .num 5⟩, .resolveRun, .call .continueNext,
        .resolveRun]
  ∧ deliveredPositions
      (runEvents (CursorIterator.iterateKeys store5 noopKeyAction ⟨none, some 2, none⟩)) =
      store5
  ∧ RunEvent.call .continueNext ∈
      eventsAfterFirstResolve
        (runEvents (CursorIterator.iterateKeys store5 noopKeyAction ⟨none, some 2, none⟩)) := by
  refine ⟨by decide, by decide, by decide⟩

/-- C3 (counterexample): the claim says `{offset: 2}` over keys 1..5 first
delivers key 3; the run actually issues `advance(1)` from the first
position and first delivers key 2. -/
theorem offset_two_first_delivers_key_two :
    firstDelivered (CursorIterator.iterateKeys store5 noopKeyAction ⟨none, none, some 2⟩) =
      some ⟨.num 2, .num 2⟩
  ∧ firstDelivered (CursorIterator.iterateKeys store5 noopKeyAction ⟨none, none, some 2⟩) ≠
      some ⟨.num 3, .num 3⟩ := by
  refine ⟨by decide, by decide⟩

/-- An out-of-fuel cursor loop never happens for `store.length + 1` fuel,
but the plain first delivery needs only one unfolding: with no pending
from-seek and no pending offset, the first delivered position is the head
of the remaining list. -/
theorem cursorLoop_plain_firstDelivered (a : CursorPos → Bool) (l : Option Int)
    (fuel : Nat) (rem : List CursorPos) (cnt : Int) :
    (deliveredPositions (cursorLoop a l (fuel + 1) rem none none cnt)).head? =
      rem.head? := by
  cases rem with
  | nil => rfl
  | cons q rest => cases a q <;> cases limitReached l (cnt + 1) <;> rfl

/-- C3 (amended): with `offset = o ≥ 2` and no other options, the run
issues `advance(o - 1)` from the first position, so the first position
delivered to the callback is the o-th one (1-based) of the store — for
`{offset: 2}` over keys 1..5 that is key 2, not key 3. -/
theorem offset_first_delivery_skips_offset_minus_one
    (store : List CursorPos) (cb : JSKey → JSKey → Option Bool) (o : Int)
    (ho : 2 ≤ o) :
    firstDelivered (CursorIterator.iterateKeys store cb ⟨none, none, some o⟩) =
      (store.drop (o.toNat - 1)).head? := by
  have hvalid : offsetOptionInvalid (some o) = false := by
    simp only [offsetOptionInvalid, Bool.and_eq_false_imp, decide_eq_false_iff_not]
    omega
  have hne : (o != 0) = true := by
    simp only [bne_iff_ne]
    omega
  have hrun : CursorIterator.iterateKeys store cb ⟨none, none, some o⟩ =
      .ok (.call .openCursor ::
        cursorLoop (iterateKeysActionDone cb) none (store.length + 1) store
          none (some o) 0) := by
    unfold CursorIterator.iterateKeys iterateCursorRun
    rw [hvalid]
    simp [initialFromPending, initialOffsetPending, hne, limitOptionInvalid]
  rw [hrun]
  cases store with
  | nil =>
    simp [cursorLoop, firstDelivered, runEvents, deliveredPositions]
  | cons p rest =>
    have hfuel : (p :: rest).length + 1 = (rest.length + 1) + 1 := by simp
    rw [hfuel]
    have hstep :
        cursorLoop (iterateKeysActionDone cb) none ((rest.length + 1) + 1)
            (p :: rest) none (some o) 0 =
          .call (.advance (o - 1)) ::
            cursorLoop (iterateKeysActionDone cb) none (rest.length + 1)
              (rest.drop ((o - 1).toNat - 1)) none none 0 := by
      have hlt : ¬ (o - 1 < 1) := by omega
      simp only [cursorLoop, hlt, if_false]
    rw [hstep]
    unfold firstDelivered runEvents
    have hdp :
        deliveredPositions (.call .openCursor :: .call (.advance (o - 1)) ::
            cursorLoop (iterateKeysActionDone cb) none (rest.length + 1)
              (rest.drop ((o - 1).toNat - 1)) none none 0) =
          deliveredPositions
            (cursorLoop (iterateKeysActionDone cb) none (rest.length + 1)
              (rest.drop ((o - 1).toNat - 1)) none none 0) := rfl
    rw [hdp, cursorLoop_plain_firstDelivered]
    have harith : (o - 1).toNat - 1 = o.toNat - 2 := by omega
    have hdrop : (p :: rest).drop (o.toNat - 1) = rest.drop (o.toNat - 2) := by
      have : o.toNat - 1 = (o.toNat - 2) + 1 := by omega
      rw [this]
      rfl
    rw [harith, hdrop]

/-- C3 witness for the amended claim: over the five-key store,
`{offset: 2}` first delivers the second position (key 2). -/
theorem offset_first_delivery_skips_offset_minus_one_witness :
    firstDelivered (CursorIterator.iterateKeys store5 noopKeyAction ⟨none, none, some 2⟩) =
      (store5.drop 1).head? := by
  have h := offset_first_delivery_skips_offset_minus_one store5 noopKeyAction 2
    (by norm_num)
  simpa using h

/-- C4: the claim says `{offset: 0}` and `{limit: 0}` fail synchronously
with the invalid-argument error before any host call.  The guards test JS
truthiness first, and 0 is falsy, so a zero offset or limit is silently
ignored: the run is identical to one without the option and iterates the
whole store.  A negative value, being truthy, does trip the guard. -/
theorem zero_offset_and_limit_silently_ignored :
    CursorIterator.iterateKeys store5 noopKeyAction ⟨none, none, some 0⟩ =
      CursorIterator.iterateKeys store5 noopKeyAction ⟨none, none, none⟩
  ∧ CursorIterator.iterateKeys store5 noopKeyAction ⟨none, some 0, none⟩ =
      CursorIterator.iterateKeys store5 noopKeyAction ⟨none, none, none⟩
  ∧ deliveredPositions
      (runEvents (CursorIterator.iterateKeys store5 noopKeyAction ⟨none, none, some 0⟩)) =
      store5
  ∧ CursorIterator.iterateKeys store5 noopKeyAction ⟨none, none, some (-1)⟩ =
      .error .offsetLessThanOne
  ∧ CursorIterator.iterateKeys store5 noopKeyAction ⟨none, some (-1), none⟩ =
      .error .limitLessThanOne := by
  refine ⟨by decide, by decide, by decide, by decide, by decide⟩

/-- A two-record index whose stored values (99, 98) differ from both its
index keys (1, 2) and the records' primary keys (10, 20). -/
def indexRecords2 : List (IndexRecord Int) :=
  [⟨.num 1, .num 10, 99⟩, ⟨.num 2, .num 20, 98⟩]

/-- The corresponding object store, keyed by the primary keys. -/
def storeRecords2 : List (StoreRecord Int) :=
  [⟨.num 10, 99⟩, ⟨.num 20, 98⟩]

/-- C5: the claim says both `getAllPrimaryKeys` variants return the primary
keys of the matching records.  `ObjectStore.getAllPrimaryKeys` does
(it delegates to the host `getAllKeys`), but `Index.getAllPrimaryKeys`
delegates to the host `getAll` and therefore returns the stored values:
on the two-record index it returns [99, 98] where the primary keys are
[10, 20]. -/
theorem index_getAllPrimaryKeys_returns_values :
    Index.getAllPrimaryKeys indexRecords2 none none = [99, 98]
  ∧ HostIndex.getAllKeys indexRecords2 none none = [.num 10, .num 20]
  ∧ indexRecords2.map (fun r => r.primaryKey) = [.num 10, .num 20]
  ∧ ObjectStore.getAllPrimaryKeys storeRecords2 none none = [.num 10, .num 20] := by
  refine ⟨by decide, by decide, by decide, by decide⟩

/-- C6: the promise returned by `Database.transaction` rejects with the
distinguished mismatch error whenever the host reports completion while
the action is still pending, and it resolves with a value `v` only when the
action resolved with that very `v` strictly before a `complete` event — so
it never resolves with an undefined or stale result. -/
theorem transaction_completion_mismatch :
    (∀ (pre post : List (TxEvent Int String)),
        (∀ e ∈ pre, e = TxEvent.complete) →
        (transactionRun (pre ++ TxEvent.complete :: post)).settled =
          some .mismatch)
  ∧ (∀ (evs : List (TxEvent Int String)) (v : Int),
        (transactionRun evs).settled = some (.resolved v) →
        ∃ pre post, evs = pre ++ TxEvent.complete :: post ∧
          TxEvent.actionResolved v ∈ pre) := by
  constructor
  · intro pre post hpre
    have h1 := processTx_all_complete pre (txInit (α := Int) (ε := String)) hpre rfl
      (Or.inl rfl)
    have hfold : transactionRun (pre ++ TxEvent.complete :: post) =
        processTx (txStep (processTx txInit pre) TxEvent.complete) post := by
      unfold transactionRun
      rw [processTx_append, processTx_cons]
    rw [hfold]
    rcases h1 with ⟨ha, hs⟩
    have h2 : (txStep (processTx (txInit (α := Int) (ε := String)) pre)
        TxEvent.complete).settled = some .mismatch := by
      rw [txStep_complete_none ha]
      rcases hs with h | h
      · rw [txSettle_of_none h]
      · rw [txSettle_of_some h]
        exact h
    exact processTx_settled_some post _ h2
  · intro evs v h
    rcases processTx_resolved_source evs txInit v h with h1 | ⟨pre, post, hd, hsrc⟩
    · exact absurd h1 (by simp [txInit])
    · refine ⟨pre, post, hd, ?_⟩
      rcases hsrc with hmem | hres
      · exact hmem
      · exact absurd hres (by simp [txInit])

/-- C6 witness: a transaction whose host reports completion with no action
settlement rejects with the mismatch error. -/
theorem transaction_completion_mismatch_witness :
    (transactionRun ([TxEvent.complete] : List (TxEvent Int String))).settled =
      some .mismatch := by
  have h := transaction_completion_mismatch.1 [] []
    (by intro e he; simp at he)
  simpa using h

/-- C7 (counterexample): the claim says every action rejection propagates
as the rejection of the wrapper's promise.  When the host reported
completion first (the action was still pending, e.g. awaiting a non-store
promise while the transaction auto-committed), the wrapper promise has
already rejected with the mismatch error, so the later action rejection
"boom" is not the settlement — even though the abort is still issued. -/
theorem action_rejection_after_complete_not_propagated :
    (transactionRun ([TxEvent.complete, TxEvent.actionRejected "boom"] :
        List (TxEvent Int String))).settled = some .mismatch
  ∧ (transactionRun ([TxEvent.complete, TxEvent.actionRejected "boom"] :
        List (TxEvent Int String))).settled ≠ some (.rejected "boom")
  ∧ (transactionRun ([TxEvent.complete, TxEvent.actionRejected "boom"] :
        List (TxEvent Int String))).abortCalled = true := by
  refine ⟨by decide, by decide, by decide⟩

/-- C7 (amended): when the action's promise rejects with `e` before the
host reports completion, the wrapper calls `transaction.abort()` and its
promise rejects with that same `e`, the abort being logged before the
rejection; when the host reported completion first, the promise has already
rejected with the mismatch error — the abort is still issued but the
promise does not reject with `e`. -/
theorem action_failure_aborts_then_rejects :
    (∀ (post : List (TxEvent Int String)) (e : String),
        (transactionRun (TxEvent.actionRejected e :: post)).abortCalled = true
      ∧ (transactionRun (TxEvent.actionRejected e :: post)).settled =
          some (.rejected e)
      ∧ (transactionRun (TxEvent.actionRejected e :: post)).log.take 2 =
          [.abortIssued, .settle (.rejected e)])
  ∧ (∀ (pre post : List (TxEvent Int String)) (e : String),
        (∀ ev ∈ pre, ev = TxEvent.complete) → pre ≠ [] →
        (transactionRun (pre ++ TxEvent.actionRejected e :: post)).settled =
          some .mismatch
      ∧ (transactionRun (pre ++ TxEvent.actionRejected e :: post)).abortCalled =
          true) := by
  constructor
  · intro post e
    have hstep : txStep (txInit : TxState Int String) (.actionRejected e) =
        ⟨none, some (.rejected e), true, [.abortIssued, .settle (.rejected e)]⟩ := by
      rw [txStep_rejected_eq,
        txSettle_of_none
          (show (txAbortMark (txInit : TxState Int String)).settled = none from rfl)]
      rfl
    have hfold : transactionRun (TxEvent.actionRejected e :: post) =
        processTx
          (⟨none, some (.rejected e), true,
            [.abortIssued, .settle (.rejected e)]⟩ : TxState Int String) post := by
      unfold transactionRun
      rw [processTx_cons, hstep]
    refine ⟨?_, ?_, ?_⟩
    · rw [hfold]
      exact processTx_abort_mono post _ rfl
    · rw [hfold]
      exact processTx_settled_some post _ rfl
    · rw [hfold]
      obtain ⟨d, hd⟩ := processTx_log_extends post
        (⟨none, some (.rejected e), true,
          [.abortIssued, .settle (.rejected e)]⟩ : TxState Int String)
      rw [hd]
      rfl
  · intro pre post e hpre hne
    obtain ⟨p0, pre0, hpre_eq⟩ : ∃ p0 pre0, pre = p0 :: pre0 := by
      cases pre with
      | nil => exact absurd rfl hne
      | cons a b => exact ⟨a, b, rfl⟩
    have hp0 : p0 = TxEvent.complete := hpre p0 (by rw [hpre_eq]; simp)
    subst hpre_eq
    subst hp0
    have hstep1 : txStep (txInit : TxState Int String) TxEvent.complete =
        ⟨none, some .mismatch, false, [.settle .mismatch]⟩ := by
      rw [txStep_complete_none rfl,
        txSettle_of_none (show (txInit : TxState Int String).settled = none from rfl)]
      rfl
    have hfold : transactionRun
        ((TxEvent.complete :: pre0) ++ TxEvent.actionRejected e :: post) =
        processTx
          (txStep
            (processTx
              (⟨none, some .mismatch, false, [.settle .mismatch]⟩ : TxState Int String)
              pre0)
            (TxEvent.actionRejected e)) post := by
      unfold transactionRun
      rw [List.cons_append, processTx_cons, hstep1, processTx_append, processTx_cons]
    constructor
    · rw [hfold]
      refine processTx_settled_some post _ (txStep_settled_some _ ?_)
      exact processTx_settled_some pre0 _ rfl
    · rw [hfold]
      refine processTx_abort_mono post _ ?_
      rw [txStep_rejected_eq, txSettle_abortCalled]
      rfl

/-- C7 witness: with the action rejection arriving first, the wrapper's
promise rejects with the action's error. -/
theorem action_failure_aborts_then_rejects_witness :
    (transactionRun ([TxEvent.actionRejected "x"] : List (TxEvent Int String))).settled =
      some (.rejected "x") :=
  (action_failure_aborts_then_rejects.1 [] "x").2.1

/-- C8: whenever the host fires a `blocked` event during `DatabaseDef.open`
(3.1.2, the version with the `onblocked` handler) and nothing settled the
promise before it, the promise rejects with the distinguished
`UpgradeAttemptBlockedError`; and any run that saw a `blocked` event is
settled — never an indefinitely pending promise. -/
theorem open_blocked_rejects_upgrade_blocked :
    (∀ (pre post : List OpenEvent),
        (∀ ev ∈ pre, ∃ o n, ev = OpenEvent.upgradeNeeded o n) →
        (openRun (pre ++ OpenEvent.blocked :: post)).settled =
          some .rejectedUpgradeBlocked)
  ∧ (∀ evs : List OpenEvent, OpenEvent.blocked ∈ evs →
        (openRun evs).settled ≠ none) := by
  constructor
  · intro pre post hpre
    have h1 : (processOpen (⟨none, []⟩ : OpenState) pre).settled = none :=
      processOpen_upgrades_keep_settled pre ⟨none, []⟩ hpre
    have hfold : openRun (pre ++ OpenEvent.blocked :: post) =
        processOpen (openStep (processOpen ⟨none, []⟩ pre) OpenEvent.blocked) post := by
      unfold openRun
      rw [processOpen_append, processOpen_cons]
    rw [hfold]
    refine processOpen_settled_some post _ ?_
    show (openSettle (processOpen ⟨none, []⟩ pre) .rejectedUpgradeBlocked).settled =
      some .rejectedUpgradeBlocked
    rw [openSettle_of_none h1]
  · have main : ∀ (evs : List OpenEvent) (s : OpenState), OpenEvent.blocked ∈ evs →
        (processOpen s evs).settled ≠ none := by
      intro evs
      induction evs with
      | nil => intro s h; simp at h
      | cons ev rest ih =>
        intro s h
        rw [processOpen_cons]
        rcases List.mem_cons.mp h with he | hrest
        · subst he
          obtain ⟨x, hx⟩ := openSettle_settled_isSome s .rejectedUpgradeBlocked
          rw [processOpen_settled_some rest _
            (show (openStep s OpenEvent.blocked).settled = some x from hx)]
          simp
        · exact ih (openStep s ev) hrest
    intro evs hmem
    exact main evs ⟨none, []⟩ hmem

/-- C8 witness: a blocked open rejects with the distinguished error. -/
theorem open_blocked_rejects_upgrade_blocked_witness :
    (openRun [OpenEvent.blocked]).settled = some .rejectedUpgradeBlocked := by
  have h := open_blocked_rejects_upgrade_blocked.1 [] []
    (by intro ev hev; simp at hev)
  simpa using h

/-- C9: for every non-empty store and every callback, a run with
`offset: 1` passes the pre-flight validation (the result is `ok`), yet on
the first cursor-ready event it issues `cursor.advance(0)`, which the host
cursor rejects: the run fails without delivering any position. -/
theorem offset_one_issues_advance_zero (p : CursorPos) (rest : List CursorPos)
    (cb : JSKey → JSKey → Option Bool) :
    CursorIterator.iterateKeys (p :: rest) cb ⟨none, none, some 1⟩ =
      .ok [.call .openCursor, .call (.advance 0), .abortedWith .advanceCountZero] := by
  rfl

/-- With a pending from-seek whose primary key is falsy, the loop behaves
exactly as if no primary key had been given: the key-only
`continue(from.key)` branch is taken. -/
theorem cursorLoop_from_primaryKey_falsy (a : CursorPos → Bool) (l : Option Int)
    (fuel : Nat) (rem : List CursorPos) (off : Option Int) (cnt : Int)
    (fk pk : JSKey) (hpk : pk.truthy = false) :
    cursorLoop a l (fuel + 1) rem (some ⟨fk, some pk⟩) off cnt =
      cursorLoop a l (fuel + 1) rem (some ⟨fk, none⟩) off cnt := by
  cases rem with
  | nil => rfl
  | cons p rest =>
    simp only [cursorLoop, hpk, Bool.false_eq_true, if_false]

/-- C10: the from-seek is gated on JS truthiness, not on presence.
A `from.key` of `0` or `""` makes the whole run identical to a run with no
`from` at all (the seek is silently skipped and iteration starts at the
first cursor position), and a falsy `from.primaryKey` makes the run
identical to one with no primary key (the key-only `continue(from.key)`
seek is used, never `continuePrimaryKey`). -/
theorem from_seek_gated_on_truthiness (store : List CursorPos)
    (cb : JSKey → JSKey → Option Bool) (lim off : Option Int)
    (fpk : Option JSKey) (fk pk : JSKey) :
    (CursorIterator.iterateKeys store cb ⟨some ⟨.num 0, fpk⟩, lim, off⟩ =
        CursorIterator.iterateKeys store cb ⟨none, lim, off⟩)
  ∧ (CursorIterator.iterateKeys store cb ⟨some ⟨.str "", fpk⟩, lim, off⟩ =
        CursorIterator.iterateKeys store cb ⟨none, lim, off⟩)
  ∧ (fk.truthy = true → pk.truthy = false →
        CursorIterator.iterateKeys store cb ⟨some ⟨fk, some pk⟩, lim, off⟩ =
          CursorIterator.iterateKeys store cb ⟨some ⟨fk, none⟩, lim, off⟩) := by
  refine ⟨rfl, rfl, fun hk hpk => ?_⟩
  unfold CursorIterator.iterateKeys iterateCursorRun
  by_cases h1 : offsetOptionInvalid off = true
  · simp [h1]
  · by_cases h2 : limitOptionInvalid lim = true
    · simp [h1, h2]
    · simp only [h1, h2, Bool.false_eq_true, if_false]
      refine congrArg (fun l => Except.ok (RunEvent.call .openCursor :: l)) ?_
      have hfp1 : initialFromPending (some ⟨fk, some pk⟩) = some ⟨fk, some pk⟩ := by
        simp [initialFromPending, hk]
      have hfp2 : initialFromPending (some ⟨fk, none⟩) = some ⟨fk, none⟩ := by
        simp [initialFromPending, hk]
      rw [hfp1, hfp2]
      exact cursorLoop_from_primaryKey_falsy (iterateKeysActionDone cb)
        lim store.length store (initialOffsetPending off) 0 fk pk hpk

/-- C10 witness: over the five-key store, `from.key = 3` with
`from.primaryKey = 0` runs exactly like `from.key = 3` alone, and
`from.key = 0` runs exactly like no `from` at all. -/
theorem from_seek_gated_on_truthiness_witness :
    CursorIterator.iterateKeys store5 noopKeyAction
        ⟨some ⟨.num 3, some (.num 0)⟩, none, none⟩ =
      CursorIterator.iterateKeys store5 noopKeyAction ⟨some ⟨.num 3, none⟩, none, none⟩ :=
  (from_seek_gated_on_truthiness store5 noopKeyAction none none none
    (.num 3) (.num 0)).2.2 (by decide) (by decide)

end PromisedDb
